import Mathlib

/-!
Verification of `achievements.py` (benmoran56/achievements, version 0.4):
a small achievement-tracking library built on a weak-reference event bus.

The embedding is shallow:
* Callables are identified by natural numbers (`FuncId`).  A Python weak
  reference (`weakref.ref(func, callback)` / `weakref.WeakMethod`) is
  modelled by `WeakCell`, a wrapper holding the id of its referent.
* The module-level `event_registry` dict (event name -> set of weak
  references) is an association list `Registry`; Python set insertion
  deduplicates because two weak references to the same object compare
  equal, which the model mirrors by guarding insertion on membership.
* `time.time()` values and float arithmetic on progress values are
  modelled exactly with rationals; the timestamps a call would observe
  are passed in explicitly.
* Calls to `dispatch_event` made by achievement methods are recorded in
  an event trace (`List Event`), so "dispatched exactly once" becomes a
  count on the trace.
* A Python exception (the `assert` in `Achievement.__init__`, the
  `ZeroDivisionError` in `percentage`) is modelled with `Except`/`Option`.
-/

namespace Achievements

/-- Identifier of a Python callable (a function or bound method). -/
abbrev FuncId := Nat

/-- A weak reference stored in the registry: `weakref.ref(func, callback)`
or `weakref.WeakMethod(func, callback)`.  Only the referent matters for the
bus's observable behaviour; the removal callback is modelled by
`funcDeath` below. -/
structure WeakCell where
  target : FuncId
deriving DecidableEq

/-- The module-level `event_registry` dict: event name to the set of weak
references registered under it.  A Python `set` of weak references is a
duplicate-free list of `WeakCell`s. -/
abbrev Registry := List (String × List WeakCell)

/-- `event_registry.get(name)`: first entry with the given key. -/
def regLookup : Registry → String → Option (List WeakCell)
  | [], _ => none
  | (n, cs) :: rest, name => if n = name then some cs else regLookup rest name

/-- `event_registry[name] = cells`: replace the entry for `name`, or append
a fresh one. -/
def regSet : Registry → String → List WeakCell → Registry
  | [], name, cs => [(name, cs)]
  | (n, old) :: rest, name, cs =>
    if n = name then (name, cs) :: rest else (n, old) :: regSet rest name cs

/-- `del event_registry[name]`. -/
def regDel : Registry → String → Registry
  | [], _ => []
  | (n, cs) :: rest, name => if n = name then rest else (n, cs) :: regDel rest name

/-- CPython equality between a raw callable and a weak reference, as used by
the membership test `func not in event_registry.get(name, [])` in
`remove_handler`.  `weakref_richcompare` returns `NotImplemented` when the
other operand is not itself a weak reference, so the comparison falls back
to default identity equality between two distinct objects: it is `False`
for every raw callable and every stored cell.  (The hashes do collide —
a weak reference hashes like its referent — but the subsequent equality
check always fails.) -/
def pyEqFuncCell (_f : FuncId) (_c : WeakCell) : Bool := false

/-- `set_handler(name, func)` (achievements.py lines 39-53): ensure an entry
for `name` exists, then `add` a weak reference to `func`.  Two weak
references with the same referent are equal in Python, so adding an
already-registered callable leaves the set unchanged. -/
def set_handler (reg : Registry) (name : String) (f : FuncId) : Registry :=
  let cells := (regLookup reg name).getD []
  let cells' := if WeakCell.mk f ∈ cells then cells else cells ++ [WeakCell.mk f]
  regSet reg name cells'

/-- `remove_handler(name, func)` (achievements.py lines 56-68): return early
unless `func` is in `event_registry.get(name, [])`; otherwise remove it and
delete the entry if the set became empty.  The membership test compares the
raw callable against the stored weak references (`pyEqFuncCell`). -/
def remove_handler (reg : Registry) (name : String) (f : FuncId) : Registry :=
  let cells := (regLookup reg name).getD []
  if cells.any (pyEqFuncCell f) then
    let cells' := cells.filter (fun c => !(pyEqFuncCell f c))
    if cells' = [] then regDel reg name else regSet reg name cells'
  else reg

/-- `dispatch_event(name, *args)` (achievements.py lines 14-26): the list of
referents invoked, in registry order.  A missing name iterates the default
`[]` and invokes nothing. -/
def dispatch_event (reg : Registry) (name : String) : List FuncId :=
  ((regLookup reg name).getD []).map WeakCell.target

/-- The calls `func()(*args)` performed by `dispatch_event(name, *args)`:
every live listener registered under `name` is invoked with exactly the
supplied arguments. -/
def dispatch_calls {α : Type} (reg : Registry) (name : String) (args : α) :
    List (FuncId × α) :=
  (dispatch_event reg name).map (fun f => (f, args))

/-- Destruction of the callable `f`: every stored weak reference to `f`
fires its removal callback (`_make_callback`, achievements.py lines 29-36),
which removes that reference from its name's set and deletes the entry when
the set becomes empty.  Entries holding no reference to `f` are untouched. -/
def funcDeath : Registry → FuncId → Registry
  | [], _ => []
  | (n, cells) :: rest, f =>
    if WeakCell.mk f ∈ cells then
      let cells' := cells.filter (fun c => !(c.target = f : Bool))
      if cells' = [] then funcDeath rest f
      else (n, cells') :: funcDeath rest f
    else (n, cells) :: funcDeath rest f

/-- The registry invariant of the spec: no event name maps to an empty
listener set. -/
def regWF (reg : Registry) : Prop := ∀ e ∈ reg, e.2 ≠ []

/-! ### Achievement model

An achievement method is modelled as a state transformer that also returns
the trace of `dispatch_event` calls it makes. -/

/-- An event dispatched by an achievement: `dispatch_event('on_achieved',
self)` or `dispatch_event('on_increment', self._current_value)`. -/
inductive Event where
  | onAchieved
  | onIncrement (value : ℚ)
deriving DecidableEq

/-- Whether an event is an `on_achieved` dispatch. -/
def isAch : Event → Bool
  | Event.onAchieved => true
  | Event.onIncrement _ => false

/-- Number of `on_achieved` dispatches in a trace. -/
def countAch (es : List Event) : Nat := es.countP isAch

/-- The module-level `_achivement_ids` list. -/
abbrev IdList := List Int

/-- The id bookkeeping of `Achievement.__init__` (achievements.py lines
74-86): `assert uid not in _achivement_ids` then
`_achivement_ids.append(uid)`.  An `AssertionError` is `Except.error`,
leaving the id list unchanged. -/
def ach_new (uid : Int) (ids : IdList) : Except Unit IdList :=
  if uid ∈ ids then Except.error () else Except.ok (ids ++ [uid])

/-- `Achievement.__del__` (achievements.py lines 97-98):
`_achivement_ids.remove(self.id)`. -/
def ach_del (uid : Int) (ids : IdList) : IdList := ids.erase uid

/-- `Achievement.set_achieved` (achievements.py lines 92-95): dispatch
`on_achieved` when not yet achieved, then unconditionally set the flag.
Input and output are the `_achieved` flag, plus the dispatch trace. -/
def set_achieved (achieved : Bool) : Bool × List Event :=
  (true, if achieved then [] else [Event.onAchieved])

/-- Iterate `set_achieved` the given number of times, concatenating the
dispatch traces. -/
def runSA : Bool → Nat → Bool × List Event
  | b, 0 => (b, [])
  | b, n + 1 =>
    let r := set_achieved b
    let r' := runSA r.1 n
    (r'.1, r.2 ++ r'.2)

/-- State of an `IncrementalAchievement`: `_goal` (an `int` parameter),
`_current_value` (a float starting at `0.0`; float arithmetic is modelled
exactly by ℚ), and the inherited `_achieved` flag. -/
structure IncrementalAchievement where
  goal : Int
  current_value : ℚ
  achieved : Bool
deriving DecidableEq

/-- `IncrementalAchievement.__init__` (achievements.py lines 103-111) with
identity fields dropped: the goal is stored without validation,
`_current_value = 0.0`, `_achieved = False`. -/
def inc_new (goal : Int) : IncrementalAchievement :=
  { goal := goal, current_value := 0, achieved := false }

/-- `IncrementalAchievement.percentage` (achievements.py lines 113-115):
`100 * self._current_value / self._goal`.  Python raises
`ZeroDivisionError` when `_goal` is zero, modelled as `none`. -/
def percentage (s : IncrementalAchievement) : Option ℚ :=
  if s.goal = 0 then none else some (100 * s.current_value / (s.goal : ℚ))

/-- `IncrementalAchievement.increment` (achievements.py lines 121-130):
no-op when achieved; otherwise add `value`, dispatch `on_increment` with
the new `_current_value`, and when the goal is reached clamp to the goal
and call `set_achieved` (which dispatches `on_achieved`, the flag being
still false at that point). -/
def increment (s : IncrementalAchievement) (value : ℚ) :
    IncrementalAchievement × List Event :=
  if s.achieved then (s, [])
  else
    let cur := s.current_value + value
    if (s.goal : ℚ) ≤ cur then
      ({ s with current_value := (s.goal : ℚ), achieved := true },
        [Event.onIncrement cur, Event.onAchieved])
    else
      ({ s with current_value := cur }, [Event.onIncrement cur])

/-- Run a sequence of `increment` calls, concatenating the dispatch
traces. -/
def runInc : IncrementalAchievement → List ℚ →
    IncrementalAchievement × List Event
  | s, [] => (s, [])
  | s, v :: vs =>
    let r := increment s v
    let r' := runInc r.1 vs
    (r'.1, r.2 ++ r'.2)

/-- State of a `TimeBasedAchievement`: `_rate`, `_last_tick` (timestamps
are rationals supplied explicitly in place of `time.time()`), and the
inherited `_achieved` flag. -/
structure TimeBasedAchievement where
  rate : ℚ
  last_tick : ℚ
  achieved : Bool
deriving DecidableEq

/-- `TimeBasedAchievement.__init__` (achievements.py lines 135-141) with
identity fields dropped: `_last_tick` is initialised to the construction
time. -/
def time_new (rate : ℚ) (now : ℚ) : TimeBasedAchievement :=
  { rate := rate, last_tick := now, achieved := false }

/-- `TimeBasedAchievement.tick` (achievements.py lines 143-151): return
immediately when achieved (leaving `_last_tick` untouched); otherwise call
`set_achieved` when `now - _last_tick <= _rate`, and set
`_last_tick = now`. -/
def tick (s : TimeBasedAchievement) (now : ℚ) :
    TimeBasedAchievement × List Event :=
  if s.achieved then (s, [])
  else if now - s.last_tick ≤ s.rate then
    ({ s with achieved := true, last_tick := now }, [Event.onAchieved])
  else
    ({ s with last_tick := now }, [])

/-! ### Event-bus lemmas -/

/-- The membership test of `remove_handler` compares a raw callable against
weak-reference objects and therefore never succeeds: `remove_handler`
always returns the registry unchanged. -/
theorem remove_handler_eq (reg : Registry) (name : String) (f : FuncId) :
    remove_handler reg name f = reg := by
  simp [remove_handler, pyEqFuncCell]

/-- Every entry of `regSet reg name cs` is either the written entry or an
entry of `reg`. -/
theorem mem_regSet (reg : Registry) (name : String) (cs : List WeakCell) :
    ∀ e ∈ regSet reg name cs, e = (name, cs) ∨ e ∈ reg := by
  induction reg with
  | nil => intro e he; simp [regSet] at he; simp [he]
  | cons hd tl ih =>
    intro e he
    by_cases h : hd.1 = name
    · simp [regSet, h] at he
      rcases he with he | he
      · exact Or.inl he
      · exact Or.inr (List.mem_cons_of_mem _ he)
    · simp [regSet, h] at he
      rcases he with he | he
      · rw [he]; exact Or.inr (by simp)
      · rcases ih e he with h' | h'
        · exact Or.inl h'
        · exact Or.inr (List.mem_cons_of_mem _ h')

/-- `set_handler` preserves the no-empty-set invariant. -/
theorem regWF_set_handler (reg : Registry) (name : String) (f : FuncId)
    (h : regWF reg) : regWF (set_handler reg name f) := by
  intro e he
  unfold set_handler at he
  rcases mem_regSet _ _ _ e he with h' | h'
  · subst h'
    by_cases hm : WeakCell.mk f ∈ (regLookup reg name).getD []
    · simpa [hm] using List.ne_nil_of_mem hm
    · simp [hm]
  · exact h e h'

/-- `funcDeath` preserves (indeed re-establishes entrywise) the
no-empty-set invariant. -/
theorem regWF_funcDeath (reg : Registry) (f : FuncId) (h : regWF reg) :
    regWF (funcDeath reg f) := by
  induction reg with
  | nil => simpa [funcDeath] using h
  | cons hd tl ih =>
    have htl : regWF tl := fun e he => h e (List.mem_cons_of_mem _ he)
    intro e he
    by_cases hm : WeakCell.mk f ∈ hd.2
    · by_cases hnil : hd.2.filter (fun c => !(c.target = f : Bool)) = []
      · rw [show funcDeath (hd :: tl) f = funcDeath tl f by
          simp [funcDeath, hm, hnil]] at he
        exact ih htl e he
      · rw [show funcDeath (hd :: tl) f
            = (hd.1, hd.2.filter (fun c => !(c.target = f : Bool)))
              :: funcDeath tl f by
          simp [funcDeath, hm, hnil]] at he
        rcases List.mem_cons.mp he with he | he
        · subst he; exact hnil
        · exact ih htl e he
    · rw [show funcDeath (hd :: tl) f = hd :: funcDeath tl f by
        simp [funcDeath, hm]] at he
      rcases List.mem_cons.mp he with he | he
      · rw [he]; exact h hd (List.mem_cons_self hd tl)
      · exact ih htl e he

/-- After the destruction of `f`, no listener set looked up in the registry
still holds a reference to `f`. -/
theorem funcDeath_no_target (reg : Registry) (f : FuncId) :
    ∀ (name : String) (cells : List WeakCell),
      regLookup (funcDeath reg f) name = some cells →
      ∀ c ∈ cells, c.target ≠ f := by
  induction reg with
  | nil => intro name cells hc; simp [funcDeath, regLookup] at hc
  | cons hd tl ih =>
    intro name cells hc c hcm
    by_cases hm : WeakCell.mk f ∈ hd.2
    · by_cases hnil : hd.2.filter (fun c => !(c.target = f : Bool)) = []
      · rw [show funcDeath (hd :: tl) f = funcDeath tl f by
          simp [funcDeath, hm, hnil]] at hc
        exact ih name cells hc c hcm
      · rw [show funcDeath (hd :: tl) f
            = (hd.1, hd.2.filter (fun c => !(c.target = f : Bool)))
              :: funcDeath tl f by
          simp [funcDeath, hm, hnil]] at hc
        by_cases hn : hd.1 = name
        · rw [regLookup, if_pos hn] at hc
          have : c ∈ hd.2.filter (fun c => !(c.target = f : Bool)) := by
            rw [Option.some_inj] at hc; rw [hc]; exact hcm
          have := (List.mem_filter.mp this).2
          simpa using this
        · rw [regLookup, if_neg hn] at hc
          exact ih name cells hc c hcm
    · rw [show funcDeath (hd :: tl) f = hd :: funcDeath tl f by
        simp [funcDeath, hm]] at hc
      by_cases hn : hd.1 = name
      · rw [regLookup, if_pos hn, Option.some_inj] at hc
        intro hcf
        apply hm
        have : c = WeakCell.mk f := by cases c; simpa using hcf
        rw [← this, hc]; exact hcm
      · rw [regLookup, if_neg hn] at hc
        exact ih name cells hc c hcm

/-! ### Claim theorems for the event bus -/

/-- C3 (code bug): after `set_handler("on_achieved", f)`, the call
`remove_handler("on_achieved", f)` leaves the registry unchanged — the
membership test compares the raw callable with the stored weak references
and never succeeds — so a subsequent `dispatch_event("on_achieved")` still
invokes `f`, contradicting both the claim and the function's own
docstring. -/
theorem remove_handler_bug :
    remove_handler (set_handler [] "on_achieved" 7) "on_achieved" 7
      = set_handler [] "on_achieved" 7 ∧
    dispatch_event
      (remove_handler (set_handler [] "on_achieved" 7) "on_achieved" 7)
      "on_achieved" = [7] :=
  ⟨rfl, rfl⟩

/-- C4: every completed bus operation — `set_handler`, `remove_handler`,
and the dead-reference cleanup fired by a callable's destruction —
preserves the invariant that no event name maps to an empty listener
set. -/
theorem registry_no_empty (reg : Registry) (name : String) (f : FuncId)
    (h : regWF reg) :
    regWF (set_handler reg name f) ∧ regWF (remove_handler reg name f) ∧
      regWF (funcDeath reg f) :=
  ⟨regWF_set_handler reg name f h,
   by rw [remove_handler_eq]; exact h,
   regWF_funcDeath reg f h⟩

/-- Witness for C4 at a concrete registry. -/
theorem registry_no_empty_witness :
    regWF [("on_achieved", [WeakCell.mk 1])] ∧
      (regWF (set_handler [("on_achieved", [WeakCell.mk 1])] "on_increment" 2) ∧
       regWF (remove_handler [("on_achieved", [WeakCell.mk 1])] "on_increment" 2) ∧
       regWF (funcDeath [("on_achieved", [WeakCell.mk 1])] 2)) :=
  ⟨by simp [regWF], registry_no_empty [("on_achieved", [WeakCell.mk 1])]
    "on_increment" 2 (by simp [regWF])⟩

/-- C8: `dispatch_event(name, *args)` invokes every live listener
registered under `name` with exactly the supplied arguments, and is a
silent no-op returning normally when `name` has no registry entry. -/
theorem dispatch_event_spec {α : Type} (reg : Registry) (name : String)
    (args : α) :
    (regLookup reg name = none → dispatch_calls reg name args = []) ∧
    (∀ (cells : List WeakCell) (f : FuncId), regLookup reg name = some cells →
       WeakCell.mk f ∈ cells → (f, args) ∈ dispatch_calls reg name args) := by
  constructor
  · intro h
    simp [dispatch_calls, dispatch_event, h]
  · intro cells f hc hm
    simp only [dispatch_calls, dispatch_event, hc, Option.getD_some]
    rw [List.map_map]
    exact List.mem_map.mpr ⟨WeakCell.mk f, hm, rfl⟩

/-- Witness for C8 at a concrete registry: the registered listener is
invoked with the arguments, and a name with no entry dispatches nothing. -/
theorem dispatch_event_spec_witness :
    (3, (99 : Int)) ∈
      dispatch_calls [("on_achieved", [WeakCell.mk 3])] "on_achieved" (99 : Int) ∧
    dispatch_calls [("on_achieved", [WeakCell.mk 3])] "on_increment" (99 : Int)
      = ([] : List (FuncId × Int)) :=
  ⟨(dispatch_event_spec [("on_achieved", [WeakCell.mk 3])] "on_achieved"
      (99 : Int)).2 [WeakCell.mk 3] 3 rfl (by decide),
   (dispatch_event_spec [("on_achieved", [WeakCell.mk 3])] "on_increment"
      (99 : Int)).1 rfl⟩

/-- C9: after `set_handler(name, f)` and the subsequent destruction of `f`
(its weak-reference finalizers having run), `dispatch_event(name, ...)`
does not invoke `f` — and, the dead reference having been removed from the
registry, no dereference of it can fail. -/
theorem weak_cleanup_spec (reg : Registry) (name : String) (f : FuncId) :
    (dispatch_event (funcDeath (set_handler reg name f) f) name).count f
      = 0 := by
  rw [List.count_eq_zero]
  intro hmem
  unfold dispatch_event at hmem
  rcases hlook : regLookup (funcDeath (set_handler reg name f) f) name with
    _ | cells
  · rw [hlook] at hmem; simp at hmem
  · rw [hlook] at hmem
    simp only [Option.getD_some] at hmem
    rcases List.mem_map.mp hmem with ⟨c, hcm, hct⟩
    exact funcDeath_no_target (set_handler reg name f) f name cells hlook
      c hcm hct

/-! ### Achievement lemmas -/

/-- Once achieved, further `set_achieved` calls change nothing and dispatch
nothing. -/
theorem runSA_true (n : Nat) : runSA true n = (true, []) := by
  induction n with
  | zero => rfl
  | succ m ih => simp [runSA, set_achieved, ih]

/-- Once achieved, further `increment` calls change nothing and dispatch
nothing. -/
theorem runInc_achieved (s : IncrementalAchievement) (ds : List ℚ)
    (h : s.achieved = true) : runInc s ds = (s, []) := by
  induction ds with
  | nil => rfl
  | cons v vs ih => simp [runInc, increment, h, ih]

/-- Main induction for C1: from an unachieved state with current value `c`,
as soon as some nonempty prefix of the remaining increments brings the
cumulative value up to the goal, the run ends achieved, clamped to the
goal, with exactly one `on_achieved` dispatch. -/
theorem runInc_reaches (G : Int) :
    ∀ (ds : List ℚ) (c : ℚ),
      (∃ n, 0 < n ∧ n ≤ ds.length ∧ (G : ℚ) ≤ c + (ds.take n).sum) →
      (runInc ⟨G, c, false⟩ ds).1 = ⟨G, (G : ℚ), true⟩ ∧
        countAch (runInc ⟨G, c, false⟩ ds).2 = 1 := by
  intro ds
  induction ds with
  | nil =>
    intro c h
    rcases h with ⟨n, hn0, hnle, _⟩
    simp at hnle
    omega
  | cons v vs ih =>
    intro c h
    by_cases hge : (G : ℚ) ≤ c + v
    · have hstep : increment ⟨G, c, false⟩ v
          = (⟨G, (G : ℚ), true⟩, [Event.onIncrement (c + v), Event.onAchieved]) := by
        simp [increment, hge]
      have hrest := runInc_achieved ⟨G, (G : ℚ), true⟩ vs rfl
      simp [runInc, hstep, hrest, countAch, List.countP_cons, List.countP_nil,
        isAch]
    · rcases h with ⟨n, hn0, hnle, hsum⟩
      rcases n with _ | m
      · omega
      have hm0 : 0 < m := by
        rcases Nat.eq_zero_or_pos m with hm | hm
        · subst hm
          simp [List.take, List.sum_cons] at hsum
          exact absurd hsum hge
        · exact hm
      have hsum' : (G : ℚ) ≤ (c + v) + (vs.take m).sum := by
        rw [List.take_succ_cons, List.sum_cons] at hsum
        linarith
      have hstep : increment ⟨G, c, false⟩ v
          = (⟨G, c + v, false⟩, [Event.onIncrement (c + v)]) := by
        simp [increment, hge]
      have hrec := ih (c + v) ⟨m, hm0, by simpa using hnle, hsum'⟩
      simp only [runInc, hstep]
      constructor
      · exact hrec.1
      · simpa [countAch, List.countP_cons, isAch] using hrec.2

/-! ### Claim theorems for the achievement model -/

/-- C1: `increment(delta)` is a no-op once achieved; otherwise it adds the
delta, dispatches `on_increment` with the new current value, and on
reaching the goal clamps to the goal and dispatches `on_achieved`; any
sequence of increments whose cumulative value reaches the goal ends
achieved, clamped to exactly the goal, with exactly one `on_achieved`
dispatch. -/
theorem increment_spec :
    (∀ (s : IncrementalAchievement) (v : ℚ), s.achieved = true →
       increment s v = (s, [])) ∧
    (∀ (s : IncrementalAchievement) (v : ℚ), s.achieved = false →
       (s.goal : ℚ) ≤ s.current_value + v →
       increment s v
         = ({ s with current_value := (s.goal : ℚ), achieved := true },
            [Event.onIncrement (s.current_value + v), Event.onAchieved])) ∧
    (∀ (s : IncrementalAchievement) (v : ℚ), s.achieved = false →
       s.current_value + v < (s.goal : ℚ) →
       increment s v
         = ({ s with current_value := s.current_value + v },
            [Event.onIncrement (s.current_value + v)])) ∧
    (∀ (G : Int) (ds : List ℚ),
       (∃ n, 0 < n ∧ n ≤ ds.length ∧ (G : ℚ) ≤ (ds.take n).sum) →
       (runInc (inc_new G) ds).1.achieved = true ∧
         (runInc (inc_new G) ds).1.current_value = (G : ℚ) ∧
         countAch (runInc (inc_new G) ds).2 = 1) := by
  refine ⟨?_, ?_, ?_, ?_⟩
  · intro s v h; simp [increment, h]
  · intro s v h hge; simp [increment, h, hge]
  · intro s v h hlt; simp [increment, h, not_le.mpr hlt]
  · intro G ds h
    have h' : ∃ n, 0 < n ∧ n ≤ ds.length ∧ (G : ℚ) ≤ 0 + (ds.take n).sum := by
      rcases h with ⟨n, hn0, hnle, hsum⟩
      exact ⟨n, hn0, hnle, by simpa using hsum⟩
    have := runInc_reaches G ds 0 h'
    unfold inc_new
    refine ⟨?_, ?_, this.2⟩
    · rw [this.1]
    · rw [this.1]

/-- Witness for C1: goal 5, increments `[2, 3]`. -/
theorem increment_spec_witness :
    (runInc (inc_new 5) [2, 3]).1.achieved = true ∧
      (runInc (inc_new 5) [2, 3]).1.current_value = ((5 : Int) : ℚ) ∧
      countAch (runInc (inc_new 5) [2, 3]).2 = 1 :=
  increment_spec.2.2.2 5 [2, 3] ⟨2, by norm_num [List.take, List.sum_cons]⟩

/-- C2: across any positive number of `set_achieved` calls starting from
the unachieved state, `on_achieved` is dispatched exactly once, the state
ends achieved, and a call made when already achieved dispatches nothing
and leaves the flag true. -/
theorem set_achieved_once (n : Nat) (h : 1 ≤ n) :
    (runSA false n).1 = true ∧ countAch (runSA false n).2 = 1 ∧
      set_achieved true = (true, []) := by
  rcases n with _ | m
  · omega
  refine ⟨?_, ?_, rfl⟩
  · simp [runSA, set_achieved, runSA_true]
  · simp [runSA, set_achieved, runSA_true, countAch, List.countP_cons,
      List.countP_nil, isAch]

/-- Witness for C2 at three calls. -/
theorem set_achieved_once_witness :
    (runSA false 3).1 = true ∧ countAch (runSA false 3).2 = 1 ∧
      set_achieved true = (true, []) :=
  set_achieved_once 3 (by decide)

/-- C5 counterexample: rate 1, constructed at time 0, ticks at times 0 and
10.  The two ticks are more than `rate` apart, yet the achievement ends
achieved — the first tick fired because it came within `rate` of the
construction-time `_last_tick`.  This refutes the claim that two ticks more
than R apart leave `achieved == false`. -/
theorem tick_gap_counterexample :
    (time_new 1 0).achieved = false ∧ (10 : ℚ) - 0 > 1 ∧
      (tick (tick (time_new 1 0) 0).1 10).1.achieved = true := by
  refine ⟨rfl, by norm_num, ?_⟩
  have h1 : tick (time_new 1 0) 0
      = (⟨1, 0, true⟩, [Event.onAchieved]) := by
    simp [tick, time_new]
  rw [h1]
  simp [tick]

/-- C5 (amended): for an unachieved `TimeBasedAchievement` whose
`_last_tick` was set at construction time `t0`, two ticks at most R apart
always end achieved; two ticks more than R apart end unachieved with no
dispatch, provided the first tick is also more than R after `t0` (otherwise
the first tick itself achieves). -/
theorem tick_pair_spec (R t0 t1 t2 : ℚ) :
    (t2 - t1 ≤ R → (tick (tick (time_new R t0) t1).1 t2).1.achieved = true) ∧
    (t2 - t1 > R → t1 - t0 > R →
       (tick (tick (time_new R t0) t1).1 t2).1.achieved = false ∧
         (tick (time_new R t0) t1).2 = [] ∧
         (tick (tick (time_new R t0) t1).1 t2).2 = []) := by
  constructor
  · intro h2
    by_cases h1 : t1 - t0 ≤ R
    · have e1 : tick (time_new R t0) t1
          = (⟨R, t1, true⟩, [Event.onAchieved]) := by
        simp [tick, time_new, h1]
      rw [e1]
      simp [tick]
    · have e1 : tick (time_new R t0) t1 = (⟨R, t1, false⟩, []) := by
        simp [tick, time_new, h1]
      rw [e1]
      simp [tick, h2]
  · intro h2 h1
    have e1 : tick (time_new R t0) t1 = (⟨R, t1, false⟩, []) := by
      simp [tick, time_new, not_le.mpr h1]
    rw [e1]
    simp [tick, not_le.mpr h2]

/-- Witness for C5 at rate 5: ticks at 10 and 12 achieve; ticks at 20 and
40 (both gaps above the rate) do not. -/
theorem tick_pair_spec_witness :
    (tick (tick (time_new 5 0) 10).1 12).1.achieved = true ∧
      (tick (tick (time_new 5 0) 20).1 40).1.achieved = false :=
  ⟨(tick_pair_spec 5 0 10 12).1 (by norm_num),
   ((tick_pair_spec 5 0 20 40).2 (by norm_num) (by norm_num)).1⟩

/-- C6 counterexample: an already-achieved instance (rate 1, `_last_tick`
0) ticked at time 5 keeps `_last_tick = 0` — the early return skips the
update, refuting the claim that every tick sets `last_tick`. -/
theorem tick_stale_counterexample :
    (tick ⟨1, 0, true⟩ 5).1.last_tick = 0 ∧ (0 : ℚ) ≠ 5 := by
  constructor
  · simp [tick]
  · norm_num

/-- C6 (amended): a tick made while unachieved sets `_last_tick` to the
current time — including the tick on which the achieved transition fires —
while a tick made when already achieved returns early, leaving the whole
state (so in particular `_last_tick`) unchanged. -/
theorem tick_last_tick_spec (s : TimeBasedAchievement) (now : ℚ) :
    (s.achieved = false → (tick s now).1.last_tick = now) ∧
    (s.achieved = true → (tick s now).1 = s ∧ (tick s now).2 = []) := by
  constructor
  · intro h
    by_cases h2 : now - s.last_tick ≤ s.rate <;> simp [tick, h, h2]
  · intro h
    simp [tick, h]

/-- Witness for C6 (amended): an unachieved tick updates `_last_tick`, an
achieved one does not. -/
theorem tick_last_tick_spec_witness :
    (tick ⟨1, 0, false⟩ 5).1.last_tick = 5 ∧
      (tick ⟨1, 0, true⟩ 5).1 = ⟨1, 0, true⟩ :=
  ⟨(tick_last_tick_spec ⟨1, 0, false⟩ 5).1 rfl,
   ((tick_last_tick_spec ⟨1, 0, true⟩ 5).2 rfl).1⟩

/-- C7: constructing an achievement whose id is already held fails with the
id list unchanged; construction from a duplicate-free id list keeps it
duplicate-free; and after the holder's destruction removes the id, a new
construction with that id succeeds. -/
theorem unique_id_spec (uid : Int) (ids : IdList) :
    (uid ∈ ids → ach_new uid ids = Except.error ()) ∧
    (ids.Nodup → ∀ ids', ach_new uid ids = Except.ok ids' → ids'.Nodup) ∧
    (ids.Nodup → uid ∈ ids →
       ach_new uid (ach_del uid ids) = Except.ok (ach_del uid ids ++ [uid])) := by
  refine ⟨?_, ?_, ?_⟩
  · intro h; simp [ach_new, h]
  · intro hnd ids' hok
    by_cases hm : uid ∈ ids
    · simp [ach_new, hm] at hok
    · simp [ach_new, hm] at hok
      rw [← hok, List.nodup_append]
      refine ⟨hnd, List.nodup_singleton uid, ?_⟩
      intro x hx hxu
      simp at hxu
      exact hm (hxu ▸ hx)
  · intro hnd _
    have hnm : uid ∉ ach_del uid ids := by
      intro hm
      exact ((List.Nodup.mem_erase_iff hnd).mp hm).1 rfl
    simp [ach_new, hnm]

/-- Witness for C7: with id 1 live, constructing id 1 fails; after the
destructor releases it, constructing id 1 succeeds. -/
theorem unique_id_spec_witness :
    ach_new 1 [1] = Except.error () ∧
      ach_new 1 (ach_del 1 [1]) = Except.ok (ach_del 1 [1] ++ [1]) :=
  ⟨(unique_id_spec 1 [1]).1 (by decide),
   (unique_id_spec 1 [1]).2.2 (by decide) (by decide)⟩

/-- C10: the `IncrementalAchievement` constructor accepts any integer goal
without validation (including zero), and reading `percentage` raises
`ZeroDivisionError` (modelled as `none`) exactly when the goal is zero,
returning `100 * current_value / goal` otherwise. -/
theorem percentage_spec :
    (∀ G : Int, inc_new G = ⟨G, 0, false⟩) ∧
    (∀ s : IncrementalAchievement, s.goal = 0 → percentage s = none) ∧
    (∀ s : IncrementalAchievement, s.goal ≠ 0 →
       percentage s = some (100 * s.current_value / (s.goal : ℚ))) :=
  ⟨fun _ => rfl,
   fun s h => by simp [percentage, h],
   fun s h => by simp [percentage, h]⟩

/-- Witness for C10: goal 0 is accepted and `percentage` fails there;
goal 4 divides normally. -/
theorem percentage_spec_witness :
    inc_new 0 = ⟨0, 0, false⟩ ∧ percentage (inc_new 0) = none ∧
      percentage (inc_new 4)
        = some (100 * (inc_new 4).current_value / ((inc_new 4).goal : ℚ)) :=
  ⟨percentage_spec.1 0,
   percentage_spec.2.1 (inc_new 0) rfl,
   percentage_spec.2.2 (inc_new 4) (by decide)⟩

end Achievements
